import Mathlib

/-!
Verification of the everyrow-sheets add-on core: a shallow embedding of
the settings store (`Settings.gs`), the tabular conversion layer
(`DataHandling.gs`), and the task polling / resumption / result
normalization layer (`Operations.gs`), together with theorems settling
the specification claims about them.

Modelling conventions:
* Spreadsheet cell values are scalars (string / number / boolean); the
  Apps Script `getValues()` API yields the empty string for blank cells,
  never `null`/`undefined`, so those JS values need no cell constructor.
* JS numbers are embedded as rationals (`ℚ`); every arithmetic operation
  performed by the code (integer-valued milliseconds multiplied by 1.5,
  min with an integer cap) is exact in binary floating point at the
  magnitudes involved, so `ℚ` arithmetic coincides with the JS semantics
  on all reachable values.
* Wall-clock time advances only at the `Utilities.sleep` suspension
  point of the poll loop, which is the only suspension point of the
  program; elapsed time is the sum of the slept intervals.
* Remote calls (`getTaskStatus`, `getArtifacts`) are modelled as oracle
  functions supplied as parameters: the n-th status query reads the
  oracle at index n.
* Thrown JS exceptions are modelled as explicit error outcomes.
-/

namespace Everyrow

/-- A spreadsheet cell value as returned by `range.getValues()`:
a string, a number, or a boolean. -/
inductive CellValue where
  | str (s : String)
  | num (q : ℚ)
  | bool (b : Bool)
deriving DecidableEq, Repr, Inhabited

/-- JS `String.prototype.trim()`: strip whitespace from both ends of
the string, working on the character sequence. -/
def jsTrim (s : String) : String :=
  String.mk (((s.data.dropWhile Char.isWhitespace).reverse.dropWhile
    Char.isWhitespace).reverse)

/-- JS `String(v)` conversion as applied to cell values. Strings pass
through unchanged and booleans render as `true`/`false`, exactly as in
JS. Integral numbers render as their decimal digits, matching JS for
the integer magnitudes a sheet holds; the rendering of non-integral
numbers is a stand-in (no theorem below evaluates it), since exact JS
float formatting is out of scope. -/
def jsString : CellValue → String
  | .str s => s
  | .bool true => "true"
  | .bool false => "false"
  | .num q => if q.den = 1 then toString q.num else toString q

/-- `isEmpty_` from `DataHandling.gs`:
`val === null || val === undefined || val === ''`.
`getValues()` never yields `null`/`undefined` for a cell, so on cell
values the test is exactly equality with the empty string — note that
no trimming is performed. -/
def isEmpty_ (val : CellValue) : Bool :=
  val == CellValue.str ""

/-- The loop of `columnToLetter_`, with explicit structural fuel: the
JS loop prepends `chr(temp % 26 + 65)` and replaces `temp` by
`floor(temp / 26) - 1` until `temp` goes negative, which is the same as
recursing on `temp / 26 - 1` while `temp ≥ 26`. Each step strictly
decreases `temp`, so any `fuel > temp` never reaches the `0` base
case. -/
def columnToLetterGo (fuel temp : ℕ) : String :=
  match fuel with
  | 0 => ""
  | fuel + 1 =>
    if temp < 26 then
      String.mk [Char.ofNat (temp % 26 + 65)]
    else
      columnToLetterGo fuel (temp / 26 - 1) ++ String.mk [Char.ofNat (temp % 26 + 65)]

/-- `columnToLetter_` from `DataHandling.gs`: converts a zero-based
column index to a spreadsheet column letter (0 → A, 25 → Z, 26 → AA). -/
def columnToLetter_ (temp : ℕ) : String :=
  columnToLetterGo (temp + 1) temp

/-- Decoder for column letters: reads a string of letters as a
bijective base-26 numeral with digits A = 1 … Z = 26. -/
def letterVal (s : String) : ℕ :=
  s.data.foldl (fun acc c => acc * 26 + (c.toNat - 64)) 0

/-! ## Settings store (`Settings.gs`)

The persisted state is the single user property `everyrow_settings`,
holding a JSON object with optional fields `apiKey` and `lastTaskId`.
The property may be absent (`Option.none`); `getSettings_` then yields
the empty object. JSON serialization round-trips the object exactly, so
the persisted state is modelled as the object itself. -/

/-- The settings object stored under the `everyrow_settings` key. -/
structure Settings where
  apiKey : Option String
  lastTaskId : Option String
deriving DecidableEq, Repr

instance : Inhabited Settings := ⟨⟨none, none⟩⟩

/-- `getSettings_`: parse the stored JSON, or the empty object if the
property is unset. -/
def getSettings_ (props : Option Settings) : Settings :=
  props.getD ⟨none, none⟩

/-- `getApiKey`: `settings.apiKey || null` — the JS `||` maps the falsy
empty string (and an absent field) to `null`. -/
def getApiKey (props : Option Settings) : Option String :=
  match (getSettings_ props).apiKey with
  | some k => if k = "" then none else some k
  | none => none

/-- `saveApiKey`: read the whole settings object, overwrite its
`apiKey` field, write the whole object back. -/
def saveApiKey (props : Option Settings) (apiKey : String) : Option Settings :=
  some { getSettings_ props with apiKey := some apiKey }

/-- `getLastTaskId`: `settings.lastTaskId || null`. -/
def getLastTaskId (props : Option Settings) : Option String :=
  match (getSettings_ props).lastTaskId with
  | some t => if t = "" then none else some t
  | none => none

/-- `saveLastTaskId`: read the whole settings object, overwrite its
`lastTaskId` field, write the whole object back. -/
def saveLastTaskId (props : Option Settings) (taskId : String) : Option Settings :=
  some { getSettings_ props with lastTaskId := some taskId }

/-- `clearLastTaskId`: read the settings object, `delete
settings.lastTaskId`, write the object back. -/
def clearLastTaskId (props : Option Settings) : Option Settings :=
  some { getSettings_ props with lastTaskId := none }

/-! ## Tabular conversion (`DataHandling.gs`)

`selectionToRecords` turns the selected grid (row 0 = headers, rows ≥ 1
= data) into a list of records; a record is the ordered key/value list
of a JS object (keys unique, insertion-ordered). The grid itself is the
`values` matrix returned by `range.getValues()`; out-of-range access
(`row[j]` on a short row) yields `undefined` in JS, which is empty like
`''`, so it is modelled by the default `.str ""`. -/

/-- A converted row record: the insertion-ordered key/value pairs of
the JS object built by `selectionToRecords`. -/
abbrev CellRecord := List (String × CellValue)

/-- `values[0].map(h => String(h).trim())` — the trimmed header row. -/
def rawHeadersOf (values : List (List CellValue)) : List String :=
  (values.headD []).map (fun h => jsTrim (jsString h))

/-- The column indices having at least one non-empty data value
(`DataHandling.gs` lines 56–64): `j` ranges over the header row,
`i ≥ 1` over the data rows. -/
def validColumnIndices (values : List (List CellValue)) : List ℕ :=
  (List.range (rawHeadersOf values).length).filter
    (fun j => values.tail.any (fun row => !(isEmpty_ (row.getD j (CellValue.str "")))))

/-- The derived headers (lines 71–77): the trimmed row-0 string when
non-empty, otherwise the placeholder `"Column " + columnToLetter_(j)`. -/
def headersOf (values : List (List CellValue)) : List String :=
  (validColumnIndices values).map (fun j =>
    if (rawHeadersOf values).getD j "" ≠ "" then (rawHeadersOf values).getD j ""
    else "Column " ++ columnToLetter_ j)

/-- The `records` array built by `selectionToRecords` (lines 85–106):
every data row keeping a non-empty cell in some valid column becomes a
record pairing each derived header with the row's cell in that column. -/
def recordsOf (values : List (List CellValue)) : List CellRecord :=
  values.tail.filterMap (fun row =>
    if (validColumnIndices values).any
        (fun j => !(isEmpty_ (row.getD j (CellValue.str "")))) then
      some ((headersOf values).zip
        ((validColumnIndices values).map (fun j => row.getD j (CellValue.str ""))))
    else none)

/-- `selectionToRecords` (`DataHandling.gs` lines 38–113), with the
selected grid passed explicitly. Thrown errors become `.error` with the
thrown message. -/
def selectionToRecords (values : List (List CellValue)) :
    Except String (List CellRecord) :=
  if values.length < 2 then
    .error "Selection must have at least 2 rows (1 header row + 1 data row)."
  else if validColumnIndices values = [] then
    .error "No columns with data found. Please select cells with data."
  else if ¬ (headersOf values).Nodup then
    .error "Duplicate header names found. Please ensure all headers are unique."
  else if recordsOf values = [] then
    .error "No data rows found. Please select cells with data."
  else
    .ok (recordsOf values)

/-- The header union of `writeResultsToSheet` (`DataHandling.gs` lines
158–163): keys of all records in first-seen order (`Set` insertion
order under `forEach`/`Object.keys`). -/
def headerUnion (records : List CellRecord) : List String :=
  records.foldl
    (fun acc r => r.foldl (fun a kv => if kv.1 ∈ a then a else a ++ [kv.1]) acc) []

/-- The output grid built by `writeResultsToSheet` (lines 158–177):
header row, then for each record and each header the record's value,
the empty string for a missing key. Cell values are scalars, never JS
objects, so the `JSON.stringify` branch for objects does not apply. -/
def buildOutputGrid (records : List CellRecord) : List (List CellValue) :=
  ((headerUnion records).map CellValue.str) ::
    records.map (fun r => (headerUnion records).map (fun h =>
      match r.lookup h with
      | some v => v
      | none => CellValue.str ""))

/-- `writeResultsToSheet` (lines 141–200), restricted to the grid it
writes: throws `'No results to write.'` on an empty record list. -/
def writeResultsToSheet (records : List CellRecord) :
    Except String (List (List CellValue)) :=
  if records = [] then .error "No results to write."
  else .ok (buildOutputGrid records)

/-! ## Polling scheduler (`Operations.gs`)

`runTaskWithPolling` submits a task, saves its id, then polls
`getTaskStatus` inside `while (Date.now() - startTime < MAX_POLL_TIME_MS)`,
sleeping `pollInterval` milliseconds before each query and growing the
interval by `pollInterval = Math.min(pollInterval * 1.5, MAX_POLL_INTERVAL_MS)`
after each non-terminal query. Submission is abstracted by passing the
submitted task's id; the remote is abstracted by a status oracle giving
the response of the n-th `getTaskStatus` call. The loop is written with
explicit fuel; 150 units of fuel are provably enough because every
iteration sleeps at least the 2000 ms initial interval against the
300000 ms budget. -/

/-- A `getTaskStatus` response: `status`, `artifact_id`, `error`. -/
structure TaskStatusResp where
  status : String
  artifact_id : String
  error : Option String
deriving DecidableEq, Repr

/-- Outcome of one `runTaskWithPolling` invocation: the returned
`completed`/`timeout` object, or the thrown task-failure error. -/
inductive PollOutcome where
  | completed (artifactId : String)
  | failed (message : String)
  | timeout
deriving DecidableEq, Repr

/-- Trace of one `runTaskWithPolling` invocation: its outcome, the
sleep intervals in order, the final elapsed wall-clock time, the number
of `getTaskStatus` queries, and the final persisted settings state. -/
structure PollTrace where
  outcome : PollOutcome
  sleeps : List ℚ
  elapsed : ℚ
  queries : ℕ
  store : Option Settings
deriving DecidableEq, Repr

/-- `MAX_POLL_TIME_MS = 5 * 60 * 1000` — the 5-minute poll budget. -/
def MAX_POLL_TIME_MS : ℚ := 5 * 60 * 1000

/-- `INITIAL_POLL_INTERVAL_MS = 2000`. -/
def INITIAL_POLL_INTERVAL_MS : ℚ := 2000

/-- `MAX_POLL_INTERVAL_MS = 10000`. -/
def MAX_POLL_INTERVAL_MS : ℚ := 10000

/-- The backoff update `Math.min(pollInterval * 1.5, MAX_POLL_INTERVAL_MS)`. -/
def nextInterval (i : ℚ) : ℚ :=
  min (i * 1.5) MAX_POLL_INTERVAL_MS

/-- A status is terminal when the loop exits on it. -/
def isTerminal (st : TaskStatusResp) : Prop :=
  st.status = "completed" ∨ st.status = "failed"

instance (st : TaskStatusResp) : Decidable (isTerminal st) := by
  unfold isTerminal; infer_instance

/-- The poll loop body of `runTaskWithPolling` (lines 33–55). State:
remaining `fuel`, `elapsed` wall-clock, current `pollInterval`, number
`q` of queries made so far, `sleeps` accumulated, persisted `store`. -/
def pollAux (oracle : ℕ → TaskStatusResp) (fuel : ℕ) (elapsed pollInterval : ℚ)
    (q : ℕ) (sleeps : List ℚ) (store : Option Settings) : Option PollTrace :=
  if elapsed < MAX_POLL_TIME_MS then
    match fuel with
    | 0 => none
    | fuel + 1 =>
      let elapsed' := elapsed + pollInterval
      let sleeps' := sleeps ++ [pollInterval]
      let st := oracle q
      if st.status = "completed" then
        some ⟨.completed st.artifact_id, sleeps', elapsed', q + 1, clearLastTaskId store⟩
      else if st.status = "failed" then
        some ⟨.failed ("Task failed: " ++ st.error.getD "Unknown error"),
          sleeps', elapsed', q + 1, clearLastTaskId store⟩
      else
        pollAux oracle fuel elapsed' (nextInterval pollInterval) (q + 1) sleeps' store
  else
    some ⟨.timeout, sleeps, elapsed, q, store⟩

/-- `runTaskWithPolling` (`Operations.gs` lines 21–63) after
submission: `taskId` is the id of the just-submitted task; the task id
is saved into the store before the loop starts. `pollTaskUntilComplete`
in the API-v0 variant is this same function with the submission kept
outside. -/
def runTaskWithPolling (taskId : String) (oracle : ℕ → TaskStatusResp)
    (store : Option Settings) : Option PollTrace :=
  pollAux oracle 150 0 INITIAL_POLL_INTERVAL_MS 0 [] (saveLastTaskId store taskId)

/-- Outcome of `checkPreviousTask`: the returned object or the thrown
error. -/
inductive CheckOutcome where
  | completed (taskId artifactId : String)
  | failed (message : String)
  | running (taskId : String)
  | noTask
deriving DecidableEq, Repr

/-- Trace of one `checkPreviousTask` invocation. -/
structure CheckResult where
  outcome : CheckOutcome
  store : Option Settings
  queries : ℕ
  sleeps : List ℚ
deriving DecidableEq, Repr

/-- JS `a || b` on nullable strings: the empty string is falsy. -/
def jsOrElse (a b : Option String) : Option String :=
  match a with
  | some s => if s = "" then b else some s
  | none => b

/-- `checkPreviousTask` (`Operations.gs` lines 70–98): resolve the task
id (`taskId || getLastTaskId()`), throw if none, then make one
`getTaskStatus` query: clear the store and return on `completed`, clear
the store and throw on `failed`, otherwise return a `running` result. -/
def checkPreviousTask (taskIdArg : Option String) (oracle : ℕ → TaskStatusResp)
    (store : Option Settings) : CheckResult :=
  match jsOrElse taskIdArg (getLastTaskId store) with
  | none => ⟨.noTask, store, 0, []⟩
  | some taskId =>
    let st := oracle 0
    if st.status = "completed" then
      ⟨.completed taskId st.artifact_id, clearLastTaskId store, 1, []⟩
    else if st.status = "failed" then
      ⟨.failed ("Task failed: " ++ st.error.getD "Unknown error"),
        clearLastTaskId store, 1, []⟩
    else
      ⟨.running taskId, store, 1, []⟩

/-! ## Result normalization (`Operations.gs` / API-v0 variant)

Result records are JS objects with scalar JSON values; their nested
values are opaque to every operation below, so scalars suffice. -/

/-- A scalar JSON value inside a result record. -/
inductive JVal where
  | str (s : String)
  | num (q : ℚ)
  | bool (b : Bool)
  | null
deriving DecidableEq, Repr

/-- A result record: insertion-ordered key/value pairs of a JS object. -/
abbrev Rec := List (String × JVal)

/-- The `data` field of an artifact or task result: a list of records
(table) or a single record (scalar). -/
inductive TaskData where
  | arr (l : List Rec)
  | obj (r : Rec)
deriving DecidableEq, Repr

/-- A child artifact inside a group; the code reads only its `data`
field, absent children data modelled as `none`. -/
structure ChildArtifact where
  data : Option Rec
deriving DecidableEq, Repr

/-- An artifact returned by `getArtifacts`: `type`, nested `artifacts`,
`data`; each field may be absent. -/
structure Artifact where
  type : Option String
  artifacts : Option (List ChildArtifact)
  data : Option TaskData
deriving DecidableEq, Repr

/-- `extractArtifactData` (`Operations.gs` lines 270–297). The input is
the (possibly absent) artifact array; only the first artifact is
examined. A `group` artifact with a non-empty `artifacts` array yields
its children's `data` in order, skipping children without data; an
array `data` passes through; an object `data` wraps into a singleton;
anything else yields `[]`. -/
def extractArtifactData (artifacts : Option (List Artifact)) : List Rec :=
  match artifacts with
  | none => []
  | some [] => []
  | some (artifact :: _) =>
    if artifact.type = some "group" ∧ (artifact.artifacts.getD []) ≠ [] then
      (artifact.artifacts.getD []).filterMap (fun c => c.data)
    else
      match artifact.data with
      | some (.arr l) => l
      | some (.obj r) => [r]
      | none => []

/-- A task result from `getTaskResult` in the API-v0 variant: only its
`data` field is read. -/
structure TaskResult where
  data : Option TaskData
deriving DecidableEq, Repr

/-- `extractResultData` (API-v0 variant, lines 211–221): absent result
or absent data yields `[]`; an array passes through; a single record
wraps into a singleton. -/
def extractResultData (taskResult : Option TaskResult) : List Rec :=
  match taskResult with
  | none => []
  | some t =>
    match t.data with
    | none => []
    | some (.arr l) => l
    | some (.obj r) => [r]

/-- The key filter of `extractDedupeResults`: drop the internal dedupe
bookkeeping fields. -/
def stripDedupeKeys (r : Rec) : Rec :=
  r.filter (fun kv =>
    kv.1 ≠ "selected" && kv.1 ≠ "equivalence_class_id" &&
      kv.1 ≠ "equivalence_class_name")

/-- `extractDedupeResults` (API-v0 variant, lines 257–276): normalize,
keep only records with `selected === true`, then copy each surviving
record without the bookkeeping keys. -/
def extractDedupeResults (taskResult : Option TaskResult) : List Rec :=
  ((extractResultData taskResult).filter
      (fun record => record.lookup "selected" == some (JVal.bool true))).map
    stripDedupeKeys

/-! ## The dedupe orchestrator (`Operations.gs` lines 229–262)

`runDedupe` converts the selection, submits a dedupe task, polls, and —
on completion — fetches `getArtifacts([result.artifactId])`, normalizes
with `extractArtifactData`, and hands the records to
`writeResultsToSheet` unchanged. The environment abstracts the remote:
the id of the submitted dedupe task, the status oracle for its poll
loop, and the artifact fetch. -/

/-- Remote environment for one `runDedupe` invocation. -/
structure DedupeEnv where
  taskId : String
  oracle : ℕ → TaskStatusResp
  artifactsFor : String → Option (List Artifact)
  store : Option Settings

/-- The record sequence `runDedupe` hands to `writeResultsToSheet`
(`Operations.gs` lines 250–257): `none` when the poll outcome is not
`completed`, otherwise `extractArtifactData(getArtifacts([artifactId]))`
with no further processing. -/
def runDedupeHandedRecords (env : DedupeEnv) : Option (List Rec) :=
  match runTaskWithPolling env.taskId env.oracle env.store with
  | some tr =>
    match tr.outcome with
    | .completed artifactId => some (extractArtifactData (env.artifactsFor artifactId))
    | _ => none
  | none => none

/-- Modelled from the spec: §4.2's dedupe post-processing — "filter the
normalized sequence to only records flagged `selected = true`, then
drop the internal bookkeeping keys … from each surviving record". It
coincides with the repository's `extractDedupeResults` applied after
normalization; `runDedupe` is compared against it. -/
def dedupePostProcess (records : List Rec) : List Rec :=
  (records.filter (fun record => record.lookup "selected" == some (JVal.bool true))).map
    stripDedupeKeys

/-! ## Auxiliary objects for the theorems below -/

/-- The k-th poll interval of a run whose queries are all non-terminal:
the k-fold backoff update applied to the initial interval. -/
def intervalSeq (k : ℕ) : ℚ :=
  nextInterval^[k] INITIAL_POLL_INTERVAL_MS

/-- A status oracle whose task never leaves the `running` state. -/
def alwaysRunning : ℕ → TaskStatusResp :=
  fun _ => ⟨"running", "", none⟩

/-- A status oracle whose task completes at the first query, with
artifact id `a1`. -/
def completesNow : ℕ → TaskStatusResp :=
  fun _ => ⟨"completed", "a1", none⟩

/-- A status oracle whose task is `running` at the first query and
`completed` (artifact id `a1`) from the second query on. -/
def runningThenCompleted : ℕ → TaskStatusResp :=
  fun q => if q = 0 then ⟨"running", "", none⟩ else ⟨"completed", "a1", none⟩

/-- A dedupe result record that is not `selected`. -/
def unselectedRecord : Rec :=
  [("selected", JVal.bool false), ("name", JVal.str "B")]

/-- A concrete remote environment for `runDedupe`: the task completes
immediately and its artifact carries a single unselected record. -/
def dedupeCexEnv : DedupeEnv where
  taskId := "t1"
  oracle := completesNow
  artifactsFor := fun _ => some [⟨none, none, some (.arr [unselectedRecord])⟩]
  store := none

/-- `letterVal` on a raw character list. -/
def letterValL (l : List Char) : ℕ :=
  l.foldl (fun acc c => acc * 26 + (c.toNat - 64)) 0

/-! ## Lemmas about the poll loop -/

lemma pollAux_stop (oracle : ℕ → TaskStatusResp) (fuel : ℕ) (elapsed i : ℚ)
    (q : ℕ) (sleeps : List ℚ) (store : Option Settings)
    (hge : MAX_POLL_TIME_MS ≤ elapsed) :
    pollAux oracle fuel elapsed i q sleeps store =
      some ⟨.timeout, sleeps, elapsed, q, store⟩ := by
  rw [pollAux.eq_def, if_neg (not_lt.mpr hge)]

lemma pollAux_step_terminal (oracle : ℕ → TaskStatusResp) (fuel : ℕ) (elapsed i : ℚ)
    (q : ℕ) (sleeps : List ℚ) (store : Option Settings)
    (hlt : elapsed < MAX_POLL_TIME_MS) (hst : (oracle q).status = "completed") :
    pollAux oracle (fuel + 1) elapsed i q sleeps store =
      some ⟨.completed (oracle q).artifact_id, sleeps ++ [i], elapsed + i, q + 1,
        clearLastTaskId store⟩ := by
  rw [pollAux, if_pos hlt]
  simp [hst]

lemma pollAux_step_failed (oracle : ℕ → TaskStatusResp) (fuel : ℕ) (elapsed i : ℚ)
    (q : ℕ) (sleeps : List ℚ) (store : Option Settings)
    (hlt : elapsed < MAX_POLL_TIME_MS) (h1 : (oracle q).status ≠ "completed")
    (h2 : (oracle q).status = "failed") :
    pollAux oracle (fuel + 1) elapsed i q sleeps store =
      some ⟨.failed ("Task failed: " ++ (oracle q).error.getD "Unknown error"),
        sleeps ++ [i], elapsed + i, q + 1, clearLastTaskId store⟩ := by
  rw [pollAux, if_pos hlt]
  simp [h1, h2]

lemma pollAux_step_running (oracle : ℕ → TaskStatusResp) (fuel : ℕ) (elapsed i : ℚ)
    (q : ℕ) (sleeps : List ℚ) (store : Option Settings)
    (hlt : elapsed < MAX_POLL_TIME_MS) (h1 : (oracle q).status ≠ "completed")
    (h2 : (oracle q).status ≠ "failed") :
    pollAux oracle (fuel + 1) elapsed i q sleeps store =
      pollAux oracle fuel (elapsed + i) (nextInterval i) (q + 1) (sleeps ++ [i]) store := by
  rw [pollAux, if_pos hlt]
  simp only [if_neg h1, if_neg h2]

lemma intervalSeq_zero : intervalSeq 0 = INITIAL_POLL_INTERVAL_MS := rfl

lemma intervalSeq_succ (k : ℕ) : intervalSeq (k + 1) = nextInterval (intervalSeq k) :=
  Function.iterate_succ_apply' nextInterval k INITIAL_POLL_INTERVAL_MS

lemma intervalSeq_bounds (k : ℕ) :
    INITIAL_POLL_INTERVAL_MS ≤ intervalSeq k ∧ intervalSeq k ≤ MAX_POLL_INTERVAL_MS := by
  induction k with
  | zero =>
    rw [intervalSeq_zero]
    constructor
    · exact le_refl _
    · norm_num [INITIAL_POLL_INTERVAL_MS, MAX_POLL_INTERVAL_MS]
  | succ k ih =>
    rw [intervalSeq_succ, nextInterval]
    constructor
    · apply le_min
      · have h1 := ih.1
        rw [INITIAL_POLL_INTERVAL_MS] at h1 ⊢
        linarith
      · norm_num [INITIAL_POLL_INTERVAL_MS, MAX_POLL_INTERVAL_MS]
    · exact min_le_right _ _

lemma intervalSeq_mono (k : ℕ) : intervalSeq k ≤ intervalSeq (k + 1) := by
  rw [intervalSeq_succ, nextInterval]
  obtain ⟨h1, h2⟩ := intervalSeq_bounds k
  apply le_min
  · rw [INITIAL_POLL_INTERVAL_MS] at h1
    linarith
  · exact h2

lemma chain'_intervalSeq_step (n : ℕ) :
    List.Chain' (fun a b => b = nextInterval a) ((List.range n).map intervalSeq) := by
  rw [List.chain'_map]
  cases n with
  | zero => simp
  | succ m =>
    rw [List.chain'_range_succ]
    intro k _
    exact intervalSeq_succ k

lemma chain'_intervalSeq_le (n : ℕ) :
    List.Chain' (fun a b => a ≤ b) ((List.range n).map intervalSeq) := by
  rw [List.chain'_map]
  cases n with
  | zero => simp
  | succ m =>
    rw [List.chain'_range_succ]
    intro k _
    exact intervalSeq_mono k

lemma mem_intervalSeq_le (n : ℕ) (x : ℚ) (hx : x ∈ (List.range n).map intervalSeq) :
    x ≤ MAX_POLL_INTERVAL_MS := by
  obtain ⟨k, -, rfl⟩ := List.mem_map.mp hx
  exact (intervalSeq_bounds k).2

lemma head_intervalSeq (n : ℕ) (hn : n ≠ 0) :
    (((List.range n).map intervalSeq)).head? = some INITIAL_POLL_INTERVAL_MS := by
  cases n with
  | zero => exact absurd rfl hn
  | succ m =>
    rw [List.range_succ_eq_map]
    rfl

/-- Master invariant of the poll loop: started at query index `q` with
the canonical interval and sleep history for `q` non-terminal queries,
and with enough fuel for the remaining budget, the loop terminates and
its trace satisfies the backoff, budget, and store bookkeeping
properties. -/
lemma pollAux_spec (oracle : ℕ → TaskStatusResp) :
    ∀ (fuel q : ℕ) (elapsed : ℚ) (store : Option Settings),
      MAX_POLL_TIME_MS ≤ elapsed + 2000 * fuel →
      (∀ k, k < q → ¬ isTerminal (oracle k)) →
      ∃ tr : PollTrace,
        pollAux oracle fuel elapsed (intervalSeq q) q ((List.range q).map intervalSeq)
            store = some tr ∧
        tr.sleeps = (List.range tr.queries).map intervalSeq ∧
        q ≤ tr.queries ∧
        (elapsed < MAX_POLL_TIME_MS → q < tr.queries) ∧
        (tr.outcome = .timeout ↔
          (MAX_POLL_TIME_MS ≤ tr.elapsed ∧ ∀ k, k < tr.queries → ¬ isTerminal (oracle k))) ∧
        (tr.outcome = .timeout → tr.store = store) ∧
        (tr.outcome ≠ .timeout → tr.store = clearLastTaskId store) := by
  intro fuel
  induction fuel with
  | zero =>
    intro q elapsed store hbudget hnt
    have hge : MAX_POLL_TIME_MS ≤ elapsed := by
      simpa using hbudget
    refine ⟨⟨.timeout, (List.range q).map intervalSeq, elapsed, q, store⟩,
      pollAux_stop _ _ _ _ _ _ _ hge, rfl, le_refl _, ?_, ?_, fun _ => rfl, ?_⟩
    · intro h
      exact absurd hge (not_le.mpr h)
    · exact ⟨fun _ => ⟨hge, hnt⟩, fun _ => rfl⟩
    · intro h
      exact absurd rfl h
  | succ fuel ih =>
    intro q elapsed store hbudget hnt
    by_cases hlt : elapsed < MAX_POLL_TIME_MS
    · by_cases hc : (oracle q).status = "completed"
      · refine ⟨⟨.completed (oracle q).artifact_id,
          (List.range q).map intervalSeq ++ [intervalSeq q], elapsed + intervalSeq q,
          q + 1, clearLastTaskId store⟩,
          pollAux_step_terminal _ _ _ _ _ _ _ hlt hc, ?_, Nat.le_succ q,
          fun _ => Nat.lt_succ_self q, ?_, ?_, fun _ => rfl⟩
        · rw [List.range_succ, List.map_append]
          rfl
        · constructor
          · intro h
            exact PollOutcome.noConfusion h
          · rintro ⟨-, hall⟩
            exact absurd (Or.inl hc) (hall q (Nat.lt_succ_self q))
        · intro h
          exact PollOutcome.noConfusion h
      · by_cases hf : (oracle q).status = "failed"
        · refine ⟨⟨.failed ("Task failed: " ++ (oracle q).error.getD "Unknown error"),
            (List.range q).map intervalSeq ++ [intervalSeq q], elapsed + intervalSeq q,
            q + 1, clearLastTaskId store⟩,
            pollAux_step_failed _ _ _ _ _ _ _ hlt hc hf, ?_, Nat.le_succ q,
            fun _ => Nat.lt_succ_self q, ?_, ?_, fun _ => rfl⟩
          · rw [List.range_succ, List.map_append]
            rfl
          · constructor
            · intro h
              exact PollOutcome.noConfusion h
            · rintro ⟨-, hall⟩
              exact absurd (Or.inr hf) (hall q (Nat.lt_succ_self q))
          · intro h
            exact PollOutcome.noConfusion h
        · rw [pollAux_step_running _ _ _ _ _ _ _ hlt hc hf, ← intervalSeq_succ]
          have harg : (List.range q).map intervalSeq ++ [intervalSeq q] =
              (List.range (q + 1)).map intervalSeq := by
            rw [List.range_succ, List.map_append]
            rfl
          rw [harg]
          have hnt' : ∀ k, k < q + 1 → ¬ isTerminal (oracle k) := by
            intro k hk
            rcases Nat.lt_succ_iff_lt_or_eq.mp hk with h | h
            · exact hnt k h
            · subst h
              rintro (h | h)
              · exact hc h
              · exact hf h
          have hbudget' : MAX_POLL_TIME_MS ≤ (elapsed + intervalSeq q) + 2000 * fuel := by
            have h2 := (intervalSeq_bounds q).1
            rw [INITIAL_POLL_INTERVAL_MS] at h2
            push_cast at hbudget ⊢
            linarith
          obtain ⟨tr, htr, hsl, hq, hqlt, hiff, hto, hnto⟩ :=
            ih (q + 1) (elapsed + intervalSeq q) store hbudget' hnt'
          exact ⟨tr, htr, hsl, by omega, fun _ => by omega, hiff, hto, hnto⟩
    · have hge : MAX_POLL_TIME_MS ≤ elapsed := not_lt.mp hlt
      refine ⟨⟨.timeout, (List.range q).map intervalSeq, elapsed, q, store⟩,
        pollAux_stop _ _ _ _ _ _ _ hge, rfl, le_refl _, ?_, ?_, fun _ => rfl, ?_⟩
      · intro h
        exact absurd hge (not_le.mpr h)
      · exact ⟨fun _ => ⟨hge, hnt⟩, fun _ => rfl⟩
      · intro h
        exact absurd rfl h

/-- The poll loop as invoked by `runTaskWithPolling`: instance of the
master invariant at the initial state. -/
lemma runTaskWithPolling_spec (taskId : String) (oracle : ℕ → TaskStatusResp)
    (store : Option Settings) :
    ∃ tr : PollTrace,
      runTaskWithPolling taskId oracle store = some tr ∧
      tr.sleeps = (List.range tr.queries).map intervalSeq ∧
      1 ≤ tr.queries ∧
      (tr.outcome = .timeout ↔
        (MAX_POLL_TIME_MS ≤ tr.elapsed ∧ ∀ k, k < tr.queries → ¬ isTerminal (oracle k))) ∧
      (tr.outcome = .timeout → tr.store = saveLastTaskId store taskId) ∧
      (tr.outcome ≠ .timeout → tr.store = clearLastTaskId (saveLastTaskId store taskId)) := by
  obtain ⟨tr, htr, hsl, -, hqlt, hiff, hto, hnto⟩ :=
    pollAux_spec oracle 150 0 0 (saveLastTaskId store taskId)
      (by norm_num [MAX_POLL_TIME_MS]) (by omega)
  refine ⟨tr, ?_, hsl, hqlt (by norm_num [MAX_POLL_TIME_MS]), hiff, hto, hnto⟩
  rw [runTaskWithPolling]
  exact htr

/-! ## Claim theorems -/

/-- C2: in every execution of the poll loop the slept intervals start
at the 2000 ms initial interval, each successive interval is the
previous one under the `min(i * 1.5, 10000)` update (hence the sequence
is non-decreasing), no interval exceeds the 10000 ms ceiling, the loop
terminates (the canonical fuel returns a trace), and the outcome is
`timeout` exactly when elapsed wall-clock time reaches the 5-minute
budget with no terminal (`completed`/`failed`) status observed. -/
theorem C2_backoff_invariant_and_timeout (taskId : String)
    (oracle : ℕ → TaskStatusResp) (store : Option Settings) :
    ∃ tr : PollTrace,
      runTaskWithPolling taskId oracle store = some tr ∧
      tr.sleeps.head? = some INITIAL_POLL_INTERVAL_MS ∧
      List.Chain' (fun a b => b = nextInterval a) tr.sleeps ∧
      List.Chain' (fun a b => a ≤ b) tr.sleeps ∧
      (∀ x ∈ tr.sleeps, x ≤ MAX_POLL_INTERVAL_MS) ∧
      (tr.outcome = .timeout ↔
        (MAX_POLL_TIME_MS ≤ tr.elapsed ∧ ∀ k, k < tr.queries → ¬ isTerminal (oracle k))) := by
  obtain ⟨tr, htr, hsl, hq, hiff, -, -⟩ := runTaskWithPolling_spec taskId oracle store
  refine ⟨tr, htr, ?_, ?_, ?_, ?_, hiff⟩
  · rw [hsl]
    exact head_intervalSeq _ (by omega)
  · rw [hsl]
    exact chain'_intervalSeq_step _
  · rw [hsl]
    exact chain'_intervalSeq_le _
  · rw [hsl]
    intro x hx
    exact mem_intervalSeq_le _ x hx

/-- C3: the task id is persisted before the first poll; a terminal
(`completed`/`failed`) outcome clears the persisted slot, while a
`timeout` outcome leaves the task id in the slot — so after the run the
slot is empty iff the outcome was terminal. -/
theorem C3_store_resumption (taskId : String) (oracle : ℕ → TaskStatusResp)
    (store : Option Settings) :
    (getSettings_ (saveLastTaskId store taskId)).lastTaskId = some taskId ∧
    ∃ tr : PollTrace,
      runTaskWithPolling taskId oracle store = some tr ∧
      (tr.outcome = .timeout → (getSettings_ tr.store).lastTaskId = some taskId) ∧
      (tr.outcome ≠ .timeout → (getSettings_ tr.store).lastTaskId = none) ∧
      ((getSettings_ tr.store).lastTaskId = none ↔ tr.outcome ≠ .timeout) := by
  obtain ⟨tr, htr, -, -, -, hto, hnto⟩ := runTaskWithPolling_spec taskId oracle store
  refine ⟨rfl, tr, htr, ?_, ?_, ?_⟩
  · intro h
    rw [hto h]
    rfl
  · intro h
    rw [hnto h]
    rfl
  · by_cases h : tr.outcome = .timeout
    · rw [hto h]
      exact ⟨fun hnone => Option.noConfusion hnone, fun hne => absurd h hne⟩
    · rw [hnto h]
      exact ⟨fun _ => h, fun _ => rfl⟩

/-- C10: the settings store keeps the API key and the last task id in
one persisted object, and each mutation is frame-preserving:
`saveLastTaskId`/`clearLastTaskId` leave the stored `apiKey` unchanged
and `saveApiKey` leaves the stored `lastTaskId` unchanged, while each
operation does set its own field. -/
theorem C10_settings_frame (props : Option Settings) (taskId apiKey : String) :
    (getSettings_ (saveLastTaskId props taskId)).apiKey = (getSettings_ props).apiKey ∧
    (getSettings_ (clearLastTaskId props)).apiKey = (getSettings_ props).apiKey ∧
    (getSettings_ (saveApiKey props apiKey)).lastTaskId =
      (getSettings_ props).lastTaskId ∧
    getApiKey (saveLastTaskId props taskId) = getApiKey props ∧
    getApiKey (clearLastTaskId props) = getApiKey props ∧
    getLastTaskId (saveApiKey props apiKey) = getLastTaskId props ∧
    (getSettings_ (saveLastTaskId props taskId)).lastTaskId = some taskId ∧
    (getSettings_ (saveApiKey props apiKey)).apiKey = some apiKey :=
  ⟨rfl, rfl, rfl, rfl, rfl, rfl, rfl, rfl⟩

/-- C6 (amended): the emptiness test classifies a cell as empty iff it
is exactly the empty string — no trimming is applied, so a
whitespace-only string is NOT empty, the number 0 is not empty, and a
column whose only data value is a whitespace-only string IS valid. -/
theorem C6_emptiness_characterization :
    (∀ v : CellValue, isEmpty_ v = true ↔ v = CellValue.str "") ∧
    isEmpty_ (CellValue.num 0) = false ∧
    isEmpty_ (CellValue.str " ") = false ∧
    validColumnIndices [[CellValue.str ""], [CellValue.str " "]] = [0] := by
  refine ⟨?_, by decide, by decide, by decide⟩
  intro v
  simp [isEmpty_]

/-- C6 counterexample: the whitespace-only string `" "` is empty after
trimming, yet `isEmpty_` classifies it as non-empty, and a column whose
only data value is `" "` is a valid column — contradicting the claim
that emptiness is decided after trimming. -/
theorem C6_counterexample :
    isEmpty_ (CellValue.str " ") = false ∧ jsTrim " " = "" ∧
    validColumnIndices [[CellValue.str ""], [CellValue.str " "]] = [0] := by
  decide

/-- C9: `extractDedupeResults` on a flat-list payload returns exactly
the records whose `selected` field strictly equals `true`, in original
order, with the keys `selected`, `equivalence_class_id` and
`equivalence_class_name` removed and every other pair unchanged; on the
two-record example it returns `[{name:"A"}]`. -/
theorem C9_extractDedupeResults :
    (∀ records : List Rec,
        extractDedupeResults (some ⟨some (.arr records)⟩) =
          (records.filter
              (fun record => record.lookup "selected" == some (JVal.bool true))).map
            (fun r => r.filter (fun kv => kv.1 ∉
              (["selected", "equivalence_class_id", "equivalence_class_name"] :
                List String)))) ∧
    extractDedupeResults (some ⟨some (.arr
        [[("selected", JVal.bool true), ("name", JVal.str "A")],
         [("selected", JVal.bool false), ("name", JVal.str "B")]])⟩) =
      [[("name", JVal.str "A")]] := by
  constructor
  · intro records
    have h1 : extractDedupeResults (some ⟨some (.arr records)⟩) =
        ((records.filter
          (fun record => record.lookup "selected" == some (JVal.bool true))).map
          stripDedupeKeys) := rfl
    rw [h1]
    apply List.map_congr_left
    intro r _
    rw [stripDedupeKeys]
    apply List.filter_congr
    intro kv _
    by_cases h1 : kv.1 = "selected" <;> by_cases h2 : kv.1 = "equivalence_class_id" <;>
      by_cases h3 : kv.1 = "equivalence_class_name" <;> simp [h1, h2, h3]
  · decide

/-- C4: the result normalizer `extractArtifactData` is total (a Lean
function) and never throws; a `group` first artifact with a non-empty
child array yields the children's data in order skipping children
without data, an array `data` passes through unchanged, an object
`data` becomes a one-element sequence, and an absent, empty or
shape-matching-none input yields the empty sequence. -/
theorem C4_extractArtifactData :
    (∀ (a : Artifact) (rest : List Artifact) (children : List ChildArtifact),
        a.type = some "group" → a.artifacts = some children → children ≠ [] →
        extractArtifactData (some (a :: rest)) =
          children.filterMap (fun c => c.data)) ∧
    (∀ (a : Artifact) (rest : List Artifact) (l : List Rec),
        ¬(a.type = some "group" ∧ a.artifacts.getD [] ≠ []) →
        a.data = some (.arr l) →
        extractArtifactData (some (a :: rest)) = l) ∧
    (∀ (a : Artifact) (rest : List Artifact) (r : Rec),
        ¬(a.type = some "group" ∧ a.artifacts.getD [] ≠ []) →
        a.data = some (.obj r) →
        extractArtifactData (some (a :: rest)) = [r]) ∧
    (∀ (a : Artifact) (rest : List Artifact),
        ¬(a.type = some "group" ∧ a.artifacts.getD [] ≠ []) →
        a.data = none →
        extractArtifactData (some (a :: rest)) = []) ∧
    extractArtifactData none = [] ∧
    extractArtifactData (some []) = [] := by
  refine ⟨?_, ?_, ?_, ?_, rfl, rfl⟩
  · intro a rest children h1 h2 h3
    simp only [extractArtifactData]
    rw [if_pos ⟨h1, by rw [h2]; simpa using h3⟩, h2]
    rfl
  · intro a rest l h1 h2
    simp only [extractArtifactData]
    rw [if_neg h1, h2]
  · intro a rest r h1 h2
    simp only [extractArtifactData]
    rw [if_neg h1, h2]
  · intro a rest h1 h2
    simp only [extractArtifactData]
    rw [if_neg h1, h2]

/-- Witness for C4: each branch of the normalizer evaluated at a
concrete payload. -/
theorem C4_extractArtifactData_witness :
    extractArtifactData (some [⟨some "group",
      some [⟨some [("a", JVal.num 1)]⟩, ⟨none⟩, ⟨some [("b", JVal.num 2)]⟩],
      none⟩]) = [[("a", JVal.num 1)], [("b", JVal.num 2)]] ∧
    extractArtifactData (some [⟨none, none,
      some (.arr [[("x", JVal.null)]])⟩]) = [[("x", JVal.null)]] ∧
    extractArtifactData (some [⟨none, none,
      some (.obj [("y", JVal.bool true)])⟩]) = [[("y", JVal.bool true)]] ∧
    extractArtifactData (some [⟨none, some [⟨some [("z", JVal.null)]⟩],
      none⟩]) = [] := by
  refine ⟨?_, ?_, ?_, ?_⟩
  · exact (C4_extractArtifactData.1 _ []
      [⟨some [("a", JVal.num 1)]⟩, ⟨none⟩, ⟨some [("b", JVal.num 2)]⟩]
      rfl rfl (by decide)).trans (by decide)
  · exact C4_extractArtifactData.2.1 _ [] [[("x", JVal.null)]] (by decide) rfl
  · exact C4_extractArtifactData.2.2.1 _ [] [("y", JVal.bool true)] (by decide) rfl
  · exact C4_extractArtifactData.2.2.2.1 _ [] (by decide) rfl

/-- C8 counterexample: a completed dedupe run whose normalized payload
is a single record with `selected = false`. `runDedupe` hands that
record unchanged to the output converter, while the dedupe
post-processing of the same normalized payload is empty — so the handed
sequence does not equal the post-processed sequence. -/
theorem C8_counterexample :
    runDedupeHandedRecords dedupeCexEnv = some [unselectedRecord] ∧
    dedupePostProcess [unselectedRecord] = [] ∧
    ([unselectedRecord] : List Rec) ≠ [] := by
  refine ⟨?_, by decide, by decide⟩
  have h : runTaskWithPolling "t1" completesNow none =
      some ⟨.completed "a1", [INITIAL_POLL_INTERVAL_MS], 0 + INITIAL_POLL_INTERVAL_MS,
        1, clearLastTaskId (saveLastTaskId none "t1")⟩ := by
    rw [runTaskWithPolling, show (150 : ℕ) = 149 + 1 from rfl,
      pollAux_step_terminal _ _ _ _ _ _ _ (by norm_num [MAX_POLL_TIME_MS]) rfl]
    rfl
  rw [runDedupeHandedRecords]
  simp only [dedupeCexEnv]
  rw [h]
  rfl

/-- C8 (amended): for every completed dedupe run, the record sequence
`runDedupe` hands to the output converter equals the normalized payload
`extractArtifactData(getArtifacts([artifactId]))` unchanged — the
`selected = true` filter and the removal of the bookkeeping keys are
not applied by the orchestrator. -/
theorem C8_amended (env : DedupeEnv) (tr : PollTrace) (aid : String)
    (h : runTaskWithPolling env.taskId env.oracle env.store = some tr)
    (hc : tr.outcome = .completed aid) :
    runDedupeHandedRecords env = some (extractArtifactData (env.artifactsFor aid)) := by
  simp only [runDedupeHandedRecords, h, hc]

/-- Witness for C8's amended theorem at the concrete environment. -/
theorem C8_amended_witness :
    runDedupeHandedRecords dedupeCexEnv =
      some (extractArtifactData (dedupeCexEnv.artifactsFor "a1")) := by
  have h : runTaskWithPolling dedupeCexEnv.taskId dedupeCexEnv.oracle
      dedupeCexEnv.store =
      some ⟨.completed "a1", [INITIAL_POLL_INTERVAL_MS], 0 + INITIAL_POLL_INTERVAL_MS,
        1, clearLastTaskId (saveLastTaskId none "t1")⟩ := by
    show runTaskWithPolling "t1" completesNow none = _
    rw [runTaskWithPolling, show (150 : ℕ) = 149 + 1 from rfl,
      pollAux_step_terminal _ _ _ _ _ _ _ (by norm_num [MAX_POLL_TIME_MS]) rfl]
    rfl
  exact C8_amended dedupeCexEnv _ "a1" h rfl

/-- C1 counterexample: with a task that is `running` at the first
status query and `completed` at the second, re-entering the poll loop
observes the completion (two queries, `completed` outcome), but
`checkPreviousTask` performs exactly one status query, sleeps never,
and returns a `running` result with the store untouched — it does not
re-enter the poll loop. -/
theorem C1_counterexample :
    checkPreviousTask (some "t") runningThenCompleted none =
      ⟨.running "t", none, 1, []⟩ ∧
    runTaskWithPolling "t" runningThenCompleted none =
      some ⟨.completed "a1", [2000, 3000], 5000, 2, some ⟨none, none⟩⟩ ∧
    (1 : ℕ) ≠ 2 := by
  refine ⟨by decide, ?_, by decide⟩
  have e0 : runTaskWithPolling "t" runningThenCompleted none =
      pollAux runningThenCompleted (149 + 1) 0 2000 0 [] (some ⟨none, some "t"⟩) := rfl
  rw [e0, pollAux_step_running _ _ _ _ _ _ _ (by norm_num [MAX_POLL_TIME_MS])
    (by decide) (by decide)]
  norm_num [nextInterval, MAX_POLL_INTERVAL_MS, min_def]
  rw [show (149 : ℕ) = 148 + 1 from rfl, pollAux_step_terminal _ _ _ _ _ _ _
    (by norm_num [MAX_POLL_TIME_MS]) (by decide)]
  norm_num [clearLastTaskId, getSettings_]
  decide

/-- C1 (amended): `checkPreviousTask` resolves the task id from its
argument or the persisted store and performs exactly one status query
with no sleeping: on `completed` it clears the store and returns a
completed result with the artifact id, on `failed` it clears the store
and throws, and on any other status it returns a `running` result with
the store unchanged. -/
theorem C1_amended (taskIdArg : Option String) (oracle : ℕ → TaskStatusResp)
    (store : Option Settings) (t : String)
    (h : jsOrElse taskIdArg (getLastTaskId store) = some t) :
    (checkPreviousTask taskIdArg oracle store).queries = 1 ∧
    (checkPreviousTask taskIdArg oracle store).sleeps = [] ∧
    ((oracle 0).status = "completed" →
      (checkPreviousTask taskIdArg oracle store).outcome =
        .completed t (oracle 0).artifact_id ∧
      (getSettings_ (checkPreviousTask taskIdArg oracle store).store).lastTaskId =
        none) ∧
    ((oracle 0).status = "failed" →
      (checkPreviousTask taskIdArg oracle store).outcome =
        .failed ("Task failed: " ++ (oracle 0).error.getD "Unknown error") ∧
      (getSettings_ (checkPreviousTask taskIdArg oracle store).store).lastTaskId =
        none) ∧
    ((oracle 0).status ≠ "completed" → (oracle 0).status ≠ "failed" →
      (checkPreviousTask taskIdArg oracle store).outcome = .running t ∧
      (checkPreviousTask taskIdArg oracle store).store = store) := by
  rw [checkPreviousTask, h]
  by_cases h1 : (oracle 0).status = "completed" <;>
    by_cases h2 : (oracle 0).status = "failed" <;>
      simp [h1, h2, clearLastTaskId, getSettings_]

/-- Witness for C1's amended theorem: explicit task id, a `running`
oracle, an empty store. -/
theorem C1_amended_witness :
    jsOrElse (some "t") (getLastTaskId none) = some "t" ∧
    (checkPreviousTask (some "t") alwaysRunning none).queries = 1 ∧
    (checkPreviousTask (some "t") alwaysRunning none).outcome = .running "t" := by
  refine ⟨by decide, ?_, ?_⟩
  · exact (C1_amended (some "t") alwaysRunning none "t" (by decide)).1
  · exact ((C1_amended (some "t") alwaysRunning none "t"
      (by decide)).2.2.2.2 (by decide) (by decide)).1

/-! ## Lemmas about the column letter encoding -/

lemma exists_concat_of_ne_nil {α : Type} (l : List α) (h : l ≠ []) :
    ∃ t c, l = t ++ [c] := by
  rcases List.eq_nil_or_concat l with h1 | ⟨t, c, h2⟩
  · exact absurd h1 h
  · exact ⟨t, c, by simpa [List.concat_eq_append] using h2⟩

lemma letterValL_append (l : List Char) (c : Char) :
    letterValL (l ++ [c]) = letterValL l * 26 + (c.toNat - 64) := by
  rw [letterValL, letterValL, List.foldl_append]
  rfl

lemma char_toNat_ofNat_valid : ∀ r : ℕ, r < 26 → (Char.ofNat (r + 65)).toNat = r + 65 := by
  decide

lemma columnToLetterGo_irrel : ∀ fuel fuel' temp : ℕ, temp < fuel → temp < fuel' →
    columnToLetterGo fuel temp = columnToLetterGo fuel' temp := by
  intro fuel
  induction fuel with
  | zero =>
    intro fuel' temp h _
    omega
  | succ fuel ih =>
    intro fuel' temp h h'
    cases fuel' with
    | zero => omega
    | succ fuel' =>
      simp only [columnToLetterGo]
      by_cases h26 : temp < 26
      · rw [if_pos h26, if_pos h26]
      · have hlt : temp / 26 - 1 < temp := by
          have := Nat.div_lt_self (show 0 < temp by omega) (show 1 < 26 by omega)
          omega
        rw [if_neg h26, if_neg h26, ih fuel' (temp / 26 - 1) (by omega) (by omega)]

lemma columnToLetter_lt26 (temp : ℕ) (h : temp < 26) :
    columnToLetter_ temp = String.mk [Char.ofNat (temp % 26 + 65)] := by
  rw [columnToLetter_]
  simp only [columnToLetterGo]
  rw [if_pos h]

lemma columnToLetter_ge26 (temp : ℕ) (h : 26 ≤ temp) :
    columnToLetter_ temp =
      columnToLetter_ (temp / 26 - 1) ++ String.mk [Char.ofNat (temp % 26 + 65)] := by
  have hlt : temp / 26 - 1 < temp := by
    have := Nat.div_lt_self (show 0 < temp by omega) (show 1 < 26 by omega)
    omega
  rw [columnToLetter_, columnToLetter_]
  conv_lhs => rw [columnToLetterGo]
  rw [if_neg (by omega), columnToLetterGo_irrel temp ((temp / 26 - 1) + 1)
    (temp / 26 - 1) (by omega) (by omega)]

lemma letterVal_columnToLetter (n : ℕ) : letterValL (columnToLetter_ n).data = n + 1 := by
  induction n using Nat.strong_induction_on with
  | _ n ih =>
    by_cases h26 : n < 26
    · rw [columnToLetter_lt26 n h26]
      have h1 := char_toNat_ofNat_valid (n % 26) (by omega)
      simp only [letterValL, List.foldl]
      omega
    · have hlt : n / 26 - 1 < n := by
        have := Nat.div_lt_self (show 0 < n by omega) (show 1 < 26 by omega)
        omega
      rw [columnToLetter_ge26 n (by omega), String.data_append, letterValL_append,
        ih (n / 26 - 1) hlt]
      have h1 := char_toNat_ofNat_valid (n % 26) (by omega)
      omega

lemma columnToLetter_chars (n : ℕ) :
    ∀ c ∈ (columnToLetter_ n).data, 65 ≤ c.toNat ∧ c.toNat ≤ 90 := by
  induction n using Nat.strong_induction_on with
  | _ n ih =>
    by_cases h26 : n < 26
    · rw [columnToLetter_lt26 n h26]
      intro c hc
      have h1 := char_toNat_ofNat_valid (n % 26) (by omega)
      have h2 : c = Char.ofNat (n % 26 + 65) := by simpa using hc
      rw [h2, h1]
      omega
    · have hlt : n / 26 - 1 < n := by
        have := Nat.div_lt_self (show 0 < n by omega) (show 1 < 26 by omega)
        omega
      rw [columnToLetter_ge26 n (by omega), String.data_append]
      intro c hc
      rcases List.mem_append.mp hc with h | h
      · exact ih (n / 26 - 1) hlt c h
      · have h1 := char_toNat_ofNat_valid (n % 26) (by omega)
        have h2 : c = Char.ofNat (n % 26 + 65) := by simpa using h
        rw [h2, h1]
        omega

lemma letterValL_pos (l : List Char) (hne : l ≠ []) (hv : ∀ c ∈ l, 65 ≤ c.toNat) :
    1 ≤ letterValL l := by
  obtain ⟨t, c, rfl⟩ := exists_concat_of_ne_nil l hne
  rw [letterValL_append]
  have := hv c (by simp)
  omega

lemma char_eq_of_toNat_eq {c d : Char} (h : c.toNat = d.toNat) : c = d := by
  apply Char.ext
  exact UInt32.ext h

lemma letterVal_unique : ∀ n : ℕ, ∀ l : List Char, l ≠ [] →
    (∀ c ∈ l, 65 ≤ c.toNat ∧ c.toNat ≤ 90) → letterValL l = n + 1 →
    l = (columnToLetter_ n).data := by
  intro n
  induction n using Nat.strong_induction_on with
  | _ n ih =>
    intro l hne hv hval
    obtain ⟨t, c, rfl⟩ := exists_concat_of_ne_nil l hne
    rw [letterValL_append] at hval
    obtain ⟨hc65, hc90⟩ := hv c (by simp)
    by_cases ht : t = []
    · subst ht
      simp only [letterValL, List.foldl] at hval
      have hn : n < 26 := by omega
      rw [columnToLetter_lt26 n hn]
      have h1 := char_toNat_ofNat_valid (n % 26) (by omega)
      have hc : c = Char.ofNat (n % 26 + 65) := by
        apply char_eq_of_toNat_eq
        rw [h1]
        omega
      rw [hc]
      rfl
    · have hL1 : 1 ≤ letterValL t :=
        letterValL_pos t ht (fun d hd => (hv d (List.mem_append_left _ hd)).1)
      have hn26 : 26 ≤ n := by omega
      have hlt : n / 26 - 1 < n := by
        have := Nat.div_lt_self (show 0 < n by omega) (show 1 < 26 by omega)
        omega
      have hrec : letterValL t = (n / 26 - 1) + 1 := by omega
      have ht' := ih (n / 26 - 1) hlt t ht
        (fun d hd => hv d (List.mem_append_left _ hd)) hrec
      have h1 := char_toNat_ofNat_valid (n % 26) (by omega)
      have hc : c = Char.ofNat (n % 26 + 65) := by
        apply char_eq_of_toNat_eq
        rw [h1]
        omega
      rw [columnToLetter_ge26 n hn26, String.data_append, ← ht', hc]

/-- C7: a valid column whose row-0 header is blank after trimming gets
the synthetic header `"Column " ++ columnToLetter_ j` for its zero-based
index `j` in the original selection; and `columnToLetter_` is the
bijective base-26 letter encoding: 0 → A, 25 → Z, 26 → AA, its output
uses only the letters A–Z, decoding it as a no-zero-digit base-26
numeral yields the index plus one, and it is the unique such
representation. -/
theorem C7_synthetic_headers :
    (∀ (values : List (List CellValue)) (k j : ℕ),
        k < (validColumnIndices values).length →
        (validColumnIndices values).getD k 0 = j →
        (rawHeadersOf values).getD j "" = "" →
        (headersOf values).getD k "" = "Column " ++ columnToLetter_ j) ∧
    columnToLetter_ 0 = "A" ∧
    columnToLetter_ 25 = "Z" ∧
    columnToLetter_ 26 = "AA" ∧
    (∀ n : ℕ, letterVal (columnToLetter_ n) = n + 1) ∧
    (∀ n : ℕ, ∀ c ∈ (columnToLetter_ n).data, 65 ≤ c.toNat ∧ c.toNat ≤ 90) ∧
    (∀ (n : ℕ) (l : List Char), l ≠ [] →
        (∀ c ∈ l, 65 ≤ c.toNat ∧ c.toNat ≤ 90) →
        letterVal (String.mk l) = n + 1 → String.mk l = columnToLetter_ n) := by
  refine ⟨?_, by decide, by decide, by decide, ?_, columnToLetter_chars, ?_⟩
  · intro values k j hk hkj hblank
    rw [headersOf, List.getD_eq_getElem _ _ (by simpa using hk), List.getElem_map]
    have hj : (validColumnIndices values)[k] = j := by
      rw [← hkj, List.getD_eq_getElem _ _ hk]
    rw [hj, if_neg (by simp only [ne_eq, not_not]; exact hblank)]
  · intro n
    exact letterVal_columnToLetter n
  · intro n l hne hv hval
    exact congrArg String.mk (letterVal_unique n l hne hv hval)

/-- Witness for C7: the blank-header column at index 0 receives
"Column A", and "AA" is the unique encoding of index 26. -/
theorem C7_synthetic_headers_witness :
    (headersOf [[CellValue.str ""], [CellValue.str "x"]]).getD 0 "" =
      "Column " ++ columnToLetter_ 0 ∧
    String.mk ['A', 'A'] = columnToLetter_ 26 := by
  constructor
  · exact C7_synthetic_headers.1 [[CellValue.str ""], [CellValue.str "x"]] 0 0
      (by decide) (by decide) (by decide)
  · exact C7_synthetic_headers.2.2.2.2.2.2 26 ['A', 'A'] (by decide) (by decide)
      (by decide)

/-! ## Lemmas for the grid/record round trip -/

lemma filterMap_eq_map_of_forall_some {α β : Type} (f : α → Option β) (g : α → β) :
    ∀ l : List α, (∀ a ∈ l, f a = some (g a)) → l.filterMap f = l.map g := by
  intro l
  induction l with
  | nil => intro _; rfl
  | cons a t ih =>
    intro h
    rw [List.filterMap_cons, h a (by simp), List.map_cons,
      ih (fun b hb => h b (by simp [hb]))]

lemma getD_range_map {α : Type} (l : List α) (d : α) :
    (List.range l.length).map (fun j => l.getD j d) = l := by
  induction l with
  | nil => rfl
  | cons a t ih =>
    rw [List.length_cons, List.range_succ_eq_map, List.map_cons, List.map_map]
    have hcomp : ((fun j => (a :: t).getD j d) ∘ Nat.succ) = fun j => t.getD j d := by
      funext j
      simp [List.getD_cons_succ]
    rw [hcomp, ih]
    rfl

lemma foldl_insert_of_mem : ∀ (r : CellRecord) (acc : List String),
    (∀ k ∈ r.map Prod.fst, k ∈ acc) →
    r.foldl (fun a kv => if kv.1 ∈ a then a else a ++ [kv.1]) acc = acc := by
  intro r
  induction r with
  | nil =>
    intro acc _
    rfl
  | cons kv t ih =>
    intro acc h
    rw [List.foldl_cons, if_pos (h kv.1 (by simp))]
    exact ih acc (fun k hk => h k (by simp [hk]))

lemma foldl_insert_fresh : ∀ (r : CellRecord) (acc : List String),
    (r.map Prod.fst).Nodup → (∀ k ∈ r.map Prod.fst, k ∉ acc) →
    r.foldl (fun a kv => if kv.1 ∈ a then a else a ++ [kv.1]) acc =
      acc ++ r.map Prod.fst := by
  intro r
  induction r with
  | nil =>
    intro acc _ _
    simp
  | cons kv t ih =>
    intro acc hnd hfr
    rw [List.map_cons] at hnd
    obtain ⟨hhead, htail⟩ := List.nodup_cons.mp hnd
    rw [List.foldl_cons, if_neg (hfr kv.1 (by simp))]
    rw [ih (acc ++ [kv.1]) htail ?_]
    · simp
    · intro k hk
      rw [List.mem_append]
      rintro (h | h)
      · exact hfr k (by simp [hk]) h
      · rw [List.mem_singleton] at h
        exact hhead (h ▸ hk)

lemma foldl_records_of_mem : ∀ (rs : List CellRecord) (acc : List String),
    (∀ r ∈ rs, ∀ k ∈ r.map Prod.fst, k ∈ acc) →
    rs.foldl (fun a r =>
      r.foldl (fun a2 kv => if kv.1 ∈ a2 then a2 else a2 ++ [kv.1]) a) acc = acc := by
  intro rs
  induction rs with
  | nil =>
    intro acc _
    rfl
  | cons r rt ih =>
    intro acc h
    rw [List.foldl_cons, foldl_insert_of_mem r acc (h r (by simp))]
    exact ih acc (fun r' hr' => h r' (by simp [hr']))

lemma headerUnion_of_keys (hs : List String) (rs : List CellRecord) (hne : rs ≠ [])
    (hkeys : ∀ r ∈ rs, r.map Prod.fst = hs) (hnd : hs.Nodup) :
    headerUnion rs = hs := by
  cases rs with
  | nil => exact absurd rfl hne
  | cons r rt =>
    rw [headerUnion, List.foldl_cons]
    have h1 : r.foldl (fun a kv => if kv.1 ∈ a then a else a ++ [kv.1]) [] = hs := by
      rw [foldl_insert_fresh r [] (by rw [hkeys r (by simp)]; exact hnd) (by simp),
        hkeys r (by simp)]
      rfl
    rw [h1]
    exact foldl_records_of_mem rt hs (fun r' hr' k hk => by
      rw [hkeys r' (by simp [hr'])] at hk
      exact hk)

lemma map_lookup_zip : ∀ (ks : List String) (vs : List CellValue), ks.Nodup →
    ks.length = vs.length →
    ks.map (fun h => match (ks.zip vs).lookup h with
      | some v => v
      | none => CellValue.str "") = vs := by
  intro ks
  induction ks with
  | nil =>
    intro vs _ hlen
    cases vs with
    | nil => rfl
    | cons v vt => simp at hlen
  | cons k kt ih =>
    intro vs hnd hlen
    cases vs with
    | nil => simp at hlen
    | cons v vt =>
      obtain ⟨hk, hnd'⟩ := List.nodup_cons.mp hnd
      rw [List.zip_cons_cons, List.map_cons]
      have hhead : (match ((k, v) :: kt.zip vt).lookup k with
          | some v => v
          | none => CellValue.str "") = v := by
        simp [List.lookup]
      have hcongr : ∀ h ∈ kt, (match ((k, v) :: kt.zip vt).lookup h with
          | some v => v
          | none => CellValue.str "") =
          (match (kt.zip vt).lookup h with
          | some v => v
          | none => CellValue.str "") := by
        intro h hh
        have hne : (h == k) = false := by
          rw [beq_eq_false_iff_ne]
          exact fun e => hk (e ▸ hh)
        simp only [List.lookup, hne]
      rw [hhead, List.map_congr_left hcongr, ih vt hnd' (by simpa using hlen)]

/-- C5 (amended): for every grid whose header row consists of
pairwise-distinct non-empty trim-fixed strings, with at least one data
row, every column holding a non-empty data cell and every data row
holding a non-empty cell, the forward conversion succeeds and the
inverse conversion of its output reproduces the original grid exactly
(headers and every cell value). -/
theorem C5_roundtrip (hs : List String) (rows : List (List CellValue))
    (hnd : hs.Nodup) (htrim : ∀ s ∈ hs, jsTrim s = s) (hne : ∀ s ∈ hs, s ≠ "")
    (hrows : rows ≠ []) (hrect : ∀ r ∈ rows, r.length = hs.length)
    (hcol : ∀ j, j < hs.length →
      ∃ r ∈ rows, isEmpty_ (r.getD j (CellValue.str "")) = false)
    (hrowne : ∀ r ∈ rows, ∃ c ∈ r, isEmpty_ c = false) :
    selectionToRecords ((hs.map CellValue.str) :: rows) =
      .ok (rows.map (fun row => hs.zip row)) ∧
    writeResultsToSheet (rows.map (fun row => hs.zip row)) =
      .ok ((hs.map CellValue.str) :: rows) := by
  have hraw : rawHeadersOf ((hs.map CellValue.str) :: rows) = hs := by
    rw [rawHeadersOf, List.headD_cons, List.map_map]
    have h1 : ∀ s ∈ hs, ((fun h => jsTrim (jsString h)) ∘ CellValue.str) s = s := by
      intro s hsmem
      simp only [Function.comp, jsString]
      exact htrim s hsmem
    rw [List.map_congr_left h1]
    exact List.map_id' hs
  have hn1 : 1 ≤ hs.length := by
    cases rows with
    | nil => exact absurd rfl hrows
    | cons r rt =>
      obtain ⟨c, hc, -⟩ := hrowne r (by simp)
      have h1 : r.length = hs.length := hrect r (by simp)
      have h2 : 0 < r.length := List.length_pos.mpr (List.ne_nil_of_mem hc)
      omega
  have hvalid : validColumnIndices ((hs.map CellValue.str) :: rows) =
      List.range hs.length := by
    rw [validColumnIndices, hraw]
    apply List.filter_eq_self.mpr
    intro j hj
    rw [List.mem_range] at hj
    obtain ⟨r, hr, hcell⟩ := hcol j hj
    rw [List.any_eq_true]
    exact ⟨r, hr, by rw [hcell]; rfl⟩
  have hheaders : headersOf ((hs.map CellValue.str) :: rows) = hs := by
    rw [headersOf, hvalid, hraw]
    have h1 : ∀ j ∈ List.range hs.length,
        (if hs.getD j "" ≠ "" then hs.getD j ""
          else "Column " ++ columnToLetter_ j) = hs.getD j "" := by
      intro j hj
      rw [List.mem_range] at hj
      refine if_pos ?_
      rw [List.getD_eq_getElem _ _ hj]
      exact hne _ (List.getElem_mem hj)
    rw [List.map_congr_left h1, getD_range_map]
  have hrecords : recordsOf ((hs.map CellValue.str) :: rows) =
      rows.map (fun row => hs.zip row) := by
    rw [recordsOf]
    apply filterMap_eq_map_of_forall_some
    intro row hr
    have hcond : (validColumnIndices ((hs.map CellValue.str) :: rows)).any
        (fun j => !(isEmpty_ (row.getD j (CellValue.str "")))) = true := by
      rw [hvalid, List.any_eq_true]
      obtain ⟨c, hc, hcne⟩ := hrowne row hr
      obtain ⟨i, hi, hci⟩ := List.mem_iff_getElem.mp hc
      refine ⟨i, List.mem_range.mpr (by rw [← hrect row hr]; exact hi), ?_⟩
      rw [List.getD_eq_getElem _ _ hi, hci]
      simp [hcne]
    rw [if_pos hcond, hheaders, hvalid]
    have h1 : (List.range hs.length).map (fun j => row.getD j (CellValue.str "")) =
        row := by
      rw [← hrect row hr, getD_range_map]
    rw [h1]
  have hkeys : ∀ r ∈ rows.map (fun row => hs.zip row), r.map Prod.fst = hs := by
    intro r hr
    obtain ⟨row, hrow', rfl⟩ := List.mem_map.mp hr
    exact List.map_fst_zip hs row (le_of_eq (hrect row hrow').symm)
  constructor
  · rw [selectionToRecords]
    rw [if_neg (by
      rw [List.length_cons]
      have := List.length_pos.mpr hrows
      omega)]
    rw [if_neg (by
      rw [hvalid]
      simp only [ne_eq, List.range_eq_nil]
      omega)]
    rw [if_neg (by
      rw [hheaders]
      exact not_not_intro hnd)]
    rw [hrecords, if_neg (by simpa using hrows)]
  · rw [writeResultsToSheet, if_neg (by simpa using hrows), buildOutputGrid,
      headerUnion_of_keys hs _ (by simpa using hrows) hkeys hnd]
    congr 1
    rw [List.map_map]
    have h1 : ∀ row ∈ rows,
        ((fun r => hs.map (fun h => match r.lookup h with
          | some v => v
          | none => CellValue.str "")) ∘ (fun row => hs.zip row)) row = row := by
      intro row hr
      simp only [Function.comp]
      exact map_lookup_zip hs row hnd (hrect row hr).symm
    rw [List.map_congr_left h1, List.map_id' rows]

/-- C5 counterexample: the grid `[[" H"],["x"]]` meets the claim's
hypotheses (its header trims to the non-empty string `"H"`, its single
column and data row are non-empty), but the forward-then-inverse
conversion yields `[["H"],["x"]]`, which differs from the original grid
in the header cell — the original headers are not reproduced. -/
theorem C5_counterexample :
    jsTrim " H" = "H" ∧ ("H" : String) ≠ "" ∧
    selectionToRecords [[CellValue.str " H"], [CellValue.str "x"]] =
      .ok [[("H", CellValue.str "x")]] ∧
    writeResultsToSheet [[("H", CellValue.str "x")]] =
      .ok [[CellValue.str "H"], [CellValue.str "x"]] ∧
    [[CellValue.str "H"], [CellValue.str "x"]] ≠
      [[CellValue.str " H"], [CellValue.str "x"]] := by
  exact ⟨by decide, by decide, rfl, rfl, by decide⟩

/-- Witness for C5 at the documentation's example grid. -/
theorem C5_roundtrip_witness :
    selectionToRecords [[CellValue.str "Name", CellValue.str "Emp"],
      [CellValue.str "Apple", CellValue.num 150000],
      [CellValue.str "Acme", CellValue.num 500]] =
      .ok [[("Name", CellValue.str "Apple"), ("Emp", CellValue.num 150000)],
        [("Name", CellValue.str "Acme"), ("Emp", CellValue.num 500)]] ∧
    writeResultsToSheet [[("Name", CellValue.str "Apple"),
        ("Emp", CellValue.num 150000)],
        [("Name", CellValue.str "Acme"), ("Emp", CellValue.num 500)]] =
      .ok [[CellValue.str "Name", CellValue.str "Emp"],
        [CellValue.str "Apple", CellValue.num 150000],
        [CellValue.str "Acme", CellValue.num 500]] := by
  have h := C5_roundtrip ["Name", "Emp"]
    [[CellValue.str "Apple", CellValue.num 150000],
     [CellValue.str "Acme", CellValue.num 500]]
    (by decide) (by decide) (by decide) (by decide) (by decide) (by decide)
    (by decide)
  exact ⟨h.1, h.2⟩

end Everyrow
